import Mathlib

/-!
# Verification of the symbol resolution and cross-reference rendering engine

This file gives a shallow embedding, in Lean 4, of the core of the
`mcp-language-server` repository: the reference aggregator (`FindReferences`),
the definition resolver (`ReadDefinition`), the clangd warm-up strategy
(`initializeClangdLanguageServer`), and the line-range merger described in the
specification.  The LSP backend and the operating system are modelled as an
explicit record of fallible capabilities (`Client`), so that every code path of
the Go source — skip-and-continue versus propagate-and-abort — appears as an
explicit `Except`/`Option` branch.  Machine integers are modelled as `Int`/`Nat`
with explicit range checks where the Go code depends on them.
-/

namespace MCP

/-! ## Protocol data model (the fields of `internal/protocol` that the source reads) -/

/-- A zero-based line/character position, as in the LSP protocol. -/
structure Position where
  line : Nat
  character : Nat
deriving DecidableEq

/-- A half-open span between two positions.  The Go field `End` is written `stop`. -/
structure Range where
  start : Position
  stop : Position
deriving DecidableEq

/-- A `file://`-scheme URI together with a range. -/
structure Location where
  uri : String
  range : Range
deriving DecidableEq

/-- The three shapes of `workspace/symbol` results the Go code distinguishes with a
type switch: `protocol.SymbolInformation`, `protocol.WorkspaceSymbol`, and the default
(minimal) fallback shape.  Both rich shapes always carry a kind field and a (possibly
empty) container name, exactly like the Go protocol structs. -/
inductive Symbol where
  | symbolInformation (name : String) (kind : Nat) (containerName : String) (location : Location)
  | workspaceSymbol (name : String) (kind : Nat) (containerName : String) (location : Location)
  | minimal (name : String) (location : Location)
deriving DecidableEq

/-- `symbol.GetName()`. -/
def Symbol.getName : Symbol → String
  | .symbolInformation n _ _ _ => n
  | .workspaceSymbol n _ _ _ => n
  | .minimal n _ => n

/-- `symbol.GetLocation()`. -/
def Symbol.getLocation : Symbol → Location
  | .symbolInformation _ _ _ l => l
  | .workspaceSymbol _ _ _ l => l
  | .minimal _ l => l

/-- The kind value carried by a symbol match, when the shape has a kind field at
all: both rich protocol shapes always supply one, the minimal fallback shape none. -/
def Symbol.suppliedKind : Symbol → Option Nat
  | .symbolInformation _ k _ _ => some k
  | .workspaceSymbol _ k _ _ => some k
  | .minimal _ _ => none

/-- Modelled from the spec: `protocol.TableKindMap` (the protocol package is not under
`src/`) maps the LSP `SymbolKind` enumeration to its display name. -/
def tableKindMap (k : Nat) : String :=
  match k with
  | 1 => "File" | 2 => "Module" | 3 => "Namespace" | 4 => "Package"
  | 5 => "Class" | 6 => "Method" | 7 => "Property" | 8 => "Field"
  | 9 => "Constructor" | 10 => "Enum" | 11 => "Interface" | 12 => "Function"
  | 13 => "Variable" | 14 => "Constant" | 15 => "String" | 16 => "Number"
  | 17 => "Boolean" | 18 => "Array" | 19 => "Object" | 20 => "Key"
  | 21 => "Null" | 22 => "EnumMember" | 23 => "Struct" | 24 => "Event"
  | 25 => "Operator" | 26 => "TypeParameter"
  | _ => ""

/-- `strings.TrimPrefix(uri, "file://")`, also used to model `DocumentUri.Path()`:
drop the leading `file://` scheme when present, otherwise return the string unchanged. -/
def stripFileScheme (u : String) : String :=
  if "file://".data.isPrefixOf u.data then u.drop 7 else u

/-! ## The line-range merger

The implementation of `GetLineRangesToDisplay` / `MergeRanges` is code of this
repository that is not under `src/` (only its caller in `FindReferences` is), so the
merger is modelled from the spec, §4.4. -/

/-- A 1-based inclusive display line range. -/
structure DisplayRange where
  startLine : Nat
  endLine : Nat
deriving DecidableEq

/-- Ordering of display ranges by start line, used to sort raw windows. -/
def rangeLE (a b : DisplayRange) : Prop := a.startLine ≤ b.startLine

instance : DecidableRel rangeLE := fun a b => Nat.decLe a.startLine b.startLine

instance : IsTotal DisplayRange rangeLE := ⟨fun a b => Nat.le_total a.startLine b.startLine⟩

instance : IsTrans DisplayRange rangeLE := ⟨fun _ _ _ => Nat.le_trans⟩

/-- Modelled from the spec: for a point line `L`, the raw window is
`[L - context, L + context]` clamped to `[1, totalLines]`. -/
def clampWindow (l totalLines context : Nat) : DisplayRange :=
  ⟨max 1 (l - context), min totalLines (l + context)⟩

/-- Modelled from the spec: greedy merge of a start-sorted window list — the next
window is absorbed into the current one when its start is `≤` the current end `+ 1`
(adjacent or overlapping), extending the current end to the larger of the two. -/
def mergeLoop : DisplayRange → List DisplayRange → List DisplayRange
  | cur, [] => [cur]
  | cur, x :: rest =>
    if x.startLine ≤ cur.endLine + 1 then
      mergeLoop ⟨cur.startLine, max cur.endLine x.endLine⟩ rest
    else
      cur :: mergeLoop x rest

/-- Merge a start-sorted list of windows. -/
def mergeSortedWindows : List DisplayRange → List DisplayRange
  | [] => []
  | w :: rest => mergeLoop w rest

/-- Modelled from the spec: `MergeRanges(points, totalLines, context)` — build the
clamped window of every point, sort the windows by start line, then merge greedily. -/
def mergeRanges (points : List Nat) (totalLines : Nat) (context : Nat) : List DisplayRange :=
  mergeSortedWindows (List.insertionSort rangeLE (points.map (fun l => clampWindow l totalLines context)))

/-- The first range `mergeLoop` emits keeps the start line of its first argument:
merging only ever extends the end of the current window. -/
theorem mergeLoop_head (l : List DisplayRange) :
    ∀ cur : DisplayRange, ∃ e t, mergeLoop cur l = DisplayRange.mk cur.startLine e :: t := by
  induction l with
  | nil => intro cur; exact ⟨cur.endLine, [], rfl⟩
  | cons x rest ih =>
    intro cur
    by_cases h : x.startLine ≤ cur.endLine + 1
    · obtain ⟨e, t, ht⟩ := ih ⟨cur.startLine, max cur.endLine x.endLine⟩
      exact ⟨e, t, by simpa [mergeLoop, h] using ht⟩
    · exact ⟨cur.endLine, mergeLoop x rest, by simp [mergeLoop, h]⟩

/-- On a start-sorted input, the merged windows are strictly separated: each window
ends at least two lines before the next one starts, so the output is sorted and the
ranges are mutually non-overlapping and non-adjacent. -/
theorem mergeLoop_separated (l : List DisplayRange) :
    ∀ cur : DisplayRange, List.Chain' rangeLE (cur :: l) →
      List.Chain' (fun a b => a.endLine + 1 < b.startLine) (mergeLoop cur l) := by
  induction l with
  | nil => intro cur _; simp [mergeLoop]
  | cons x rest ih =>
    intro cur hsort
    rw [List.chain'_cons] at hsort
    obtain ⟨hcx, hxrest⟩ := hsort
    by_cases h : x.startLine ≤ cur.endLine + 1
    · rw [mergeLoop, if_pos h]
      apply ih
      rw [List.chain'_cons'] at hxrest ⊢
      refine ⟨?_, hxrest.2⟩
      intro y hy
      exact le_trans hcx (hxrest.1 y hy)
    · rw [mergeLoop, if_neg h]
      obtain ⟨e, t, ht⟩ := mergeLoop_head rest x
      rw [ht]
      rw [List.chain'_cons]
      constructor
      · exact Nat.lt_of_not_le h
      · rw [← ht]
        exact ih x hxrest

/-- C2. The line-range merger: each point line `L` yields the window
`[L - context, L + context]` clamped to `[1, totalLines]`; windows are sorted by start
line and merged greedily whenever the next start is at most the current end plus one.
Consequently the output windows are separated (sorted, non-overlapping, non-adjacent),
and the three concrete examples of the spec evaluate as claimed. -/
theorem mergeRanges_spec :
    (∀ points totalLines context,
      List.Chain' (fun a b => a.endLine + 1 < b.startLine) (mergeRanges points totalLines context)) ∧
    mergeRanges [10] 100 5 = [⟨5, 15⟩] ∧
    mergeRanges [10, 12] 100 1 = [⟨9, 13⟩] ∧
    mergeRanges [10, 50] 100 1 = [⟨9, 11⟩, ⟨49, 51⟩] := by
  refine ⟨?_, by decide, by decide, by decide⟩
  intro points totalLines context
  unfold mergeRanges
  cases hsorted : List.insertionSort rangeLE (points.map (fun l => clampWindow l totalLines context)) with
  | nil => simp [mergeSortedWindows]
  | cons w rest =>
    have h := List.sorted_insertionSort rangeLE (points.map (fun l => clampWindow l totalLines context))
    rw [hsorted] at h
    exact mergeLoop_separated rest w h.chain'

/-! ## Lexicographic string comparison

`sort.Strings` sorts lexicographically.  The comparator is written as an executable
Boolean function on character lists and then proved equivalent to the standard
linear order on `String`, so that concrete instances evaluate by `decide`. -/

/-- Lexicographic comparison of character lists by code point. -/
def charsLe : List Char → List Char → Bool
  | [], _ => true
  | _ :: _, [] => false
  | a :: as, b :: bs =>
    if a.toNat < b.toNat then true
    else if b.toNat < a.toNat then false
    else charsLe as bs

/-- Lexicographic comparison of strings, as performed by `sort.Strings`. -/
def strLe (a b : String) : Bool := charsLe a.data b.data

/-- `charsLe` decides the negation of the strict lexicographic order the other way. -/
theorem charsLe_iff_not_lex :
    ∀ as bs : List Char, charsLe as bs = true ↔ ¬ List.Lex (· < ·) bs as := by
  intro as
  induction as with
  | nil =>
    intro bs
    simp [charsLe, List.Lex.not_nil_right]
  | cons a as ih =>
    intro bs
    cases bs with
    | nil =>
      simp only [charsLe]
      constructor
      · intro h; exact absurd h (by simp)
      · intro h; exact absurd (List.Lex.nil) h
    | cons b bs =>
      by_cases h1 : a.toNat < b.toNat
      · have hab : a < b := h1
        simp only [charsLe, if_pos h1, true_iff]
        intro hl
        cases hl with
        | cons h => exact Nat.lt_irrefl _ h1
        | rel h => exact Nat.lt_asymm h1 h
      · by_cases h2 : b.toNat < a.toNat
        · have hba : b < a := h2
          simp only [charsLe, if_neg h1, if_pos h2]
          constructor
          · intro h; exact absurd h (by simp)
          · intro hnot; exact absurd (List.Lex.rel hba) hnot
        · have heq : a = b := Char.ext (UInt32.ext (Nat.le_antisymm (Nat.le_of_not_lt h2) (Nat.le_of_not_lt h1)))
          subst heq
          simp only [charsLe, if_neg h1, if_neg h2]
          rw [ih bs, List.Lex.cons_iff]

/-- `strLe` agrees with the standard lexicographic order on `String`. -/
theorem strLe_iff_le (a b : String) : strLe a b = true ↔ a ≤ b := by
  rw [strLe, charsLe_iff_not_lex, String.le_iff_toList_le, ← not_lt]
  exact Iff.rfl

/-- The sorting relation used for URI iteration order, as a proposition. -/
def strLeR (a b : String) : Prop := strLe a b = true

instance : DecidableRel strLeR := fun a b => Bool.decEq (strLe a b) true

instance : IsTotal String strLeR :=
  ⟨fun a b => by rw [strLeR, strLeR, strLe_iff_le, strLe_iff_le]; exact le_total a b⟩

instance : IsTrans String strLeR :=
  ⟨fun a b c h1 h2 => by
    rw [strLeR, strLe_iff_le] at h1 h2 ⊢
    exact le_trans h1 h2⟩

/-! ## Grouping references by file (`FindReferences`, src/unnamed/part_000)

`refsByFile` collects each reference under its URI in arrival order; the key set of
that map, sorted with `sort.Strings`, drives the per-file iteration. -/

/-- The references of one file: `refsByFile[uri]`, in arrival order. -/
def fileRefsFor (refs : List Location) (u : String) : List Location :=
  refs.filter (fun r => r.uri == u)

/-- The distinct file URIs of a reference list, sorted lexicographically —
the `uris` slice after `sort.Strings(uris)`. -/
def groupUris (refs : List Location) : List String :=
  List.insertionSort strLeR (refs.map (fun r => r.uri)).dedup

/-- The sorted URI list is sorted in the standard string order. -/
theorem groupUris_sorted (refs : List Location) :
    List.Sorted (· ≤ ·) (groupUris refs) := by
  have h := List.sorted_insertionSort strLeR (refs.map (fun r => r.uri)).dedup
  exact h.imp (fun hab => (strLe_iff_le _ _).mp hab)

/-- The per-file groups partition the reference list: the group sizes over the sorted
distinct URIs sum to the total number of references. -/
theorem groupUris_counts_sum (refs : List Location) :
    ((groupUris refs).map (fun u => (fileRefsFor refs u).length)).sum = refs.length := by
  classical
  have hperm : (groupUris refs).Perm (refs.map (fun r => r.uri)).dedup :=
    List.perm_insertionSort strLeR _
  have hmap := (hperm.map (fun u => (fileRefsFor refs u).length)).sum_eq
  rw [hmap]
  have hcount : ∀ u, (fileRefsFor refs u).length = List.count u (refs.map (fun r => r.uri)) := by
    intro u
    rw [fileRefsFor, ← List.countP_eq_length_filter, List.count, List.countP_map]
    rfl
  calc ((refs.map (fun r => r.uri)).dedup.map (fun u => (fileRefsFor refs u).length)).sum
      = ((refs.map (fun r => r.uri)).dedup.map
          (fun u => List.count u (refs.map (fun r => r.uri)))).sum := by
        congr 1
        exact List.map_congr_left (fun u _ => hcount u)
    _ = (refs.map (fun r => r.uri)).length := List.sum_map_count_dedup_eq_length _
    _ = refs.length := List.length_map _ _

/-! ## The backend collaborator

Every external capability the two tools consume (spec §6), plus the operating-system
calls (`os.ReadFile`, `os.Getenv`) and the out-of-`src/` utility
`GetLineRangesToDisplay`, modelled as a record of fallible functions. -/

/-- The result set of a `workspace/symbol` request; `Results()` may itself fail to
parse (`ResultParseError`). -/
structure SymbolRes where
  results : Except String (List Symbol)

/-- `protocol.TextDocumentPositionParams`. -/
structure TextDocumentPositionParams where
  uri : String
  position : Position
deriving DecidableEq

/-- `protocol.ReferenceParams` as built by `FindReferences`. -/
structure ReferenceParams where
  textDocumentPosition : TextDocumentPositionParams
  includeDeclaration : Bool
deriving DecidableEq

/-- The backend, operating system and out-of-`src/` utilities consumed by the tools. -/
structure Client where
  symbol : String → Except String SymbolRes
  openFile : String → Except String Unit
  references : ReferenceParams → Except String (List Location)
  getFullDefinition : Location → Except String (String × Location)
  readFile : String → Except String String
  getLineRangesToDisplay : List Location → Nat → Int → Except String (List Nat)
  envContextLines : String

/-- The references request parameters built for a symbol's location:
start position of the match, `IncludeDeclaration = false`. -/
def mkReferenceParams (loc : Location) : ReferenceParams :=
  { textDocumentPosition := { uri := loc.uri, position := loc.range.start }
    includeDeclaration := false }

/-! ## Configuration: `LSP_CONTEXT_LINES` -/

/-- Accumulate decimal digits; any non-digit character fails the parse. -/
def digitsVal : List Char → Nat → Option Nat
  | [], acc => some acc
  | ch :: rest, acc =>
    if ch.isDigit then digitsVal rest (acc * 10 + (ch.toNat - 48)) else none

/-- `strconv.Atoi`: an optional sign, then at least one decimal digit and nothing
else; values outside the 64-bit signed range fail with a range error. -/
def goAtoi (s : String) : Option Int :=
  match s.data with
  | [] => none
  | cs =>
    let signDigits : Bool × List Char :=
      match cs with
      | '-' :: t => (true, t)
      | '+' :: t => (false, t)
      | t => (false, t)
    match signDigits.2 with
    | [] => none
    | ds =>
      match digitsVal ds 0 with
      | none => none
      | some n =>
        let v : Int := if signDigits.1 then -(n : Int) else (n : Int)
        if -(2 : Int) ^ 63 ≤ v ∧ v ≤ (2 : Int) ^ 63 - 1 then some v else none

/-- The context width used by `FindReferences`: default 5, overridden by the
`LSP_CONTEXT_LINES` environment value only when it is non-empty, parses, and the
parsed value is non-negative. -/
def contextLinesFromEnv (envLines : String) : Int :=
  if envLines ≠ "" then
    match goAtoi envLines with
    | some val => if 0 ≤ val then val else 5
    | none => 5
  else 5

/-! ## Rendering helpers -/

/-- Split a character list at every newline, accumulating the current line reversed. -/
def splitLinesAux : List Char → List Char → List String
  | [], acc => [String.mk acc.reverse]
  | c :: rest, acc =>
    if c = '\n' then String.mk acc.reverse :: splitLinesAux rest []
    else splitLinesAux rest (c :: acc)

/-- `strings.Split(s, "\n")`: the newline-separated pieces of `s`; the empty string
yields one empty piece, like in Go. -/
def splitLines (s : String) : List String := splitLinesAux s.data []

/-- Number a list of source lines starting at `n`. -/
def numberLines : List String → Nat → List String
  | [], _ => []
  | l :: ls, n => (toString n ++ "| " ++ l) :: numberLines ls (n + 1)

/-- Modelled from the spec: `addLineNumbers` (code of this repository not under
`src/`) prefixes each line of a definition with its absolute line number, starting at
the definition's first line. -/
def addLineNumbers (text : String) (startLine : Nat) : String :=
  String.intercalate "\n" (numberLines (splitLines text) startLine)

/-- Modelled from the spec: `ConvertLinesToRanges` (code of this repository not under
`src/`) groups a sorted list of line numbers into maximal contiguous inclusive ranges. -/
def convertLinesToRanges : List Nat → Nat → List (Nat × Nat)
  | [], _ => []
  | l :: rest, total =>
    match convertLinesToRanges rest total with
    | [] => [(l, l)]
    | (a, b) :: rs => if l + 1 = a then (l, b) :: rs else (l, l) :: (a, b) :: rs

/-- The lines of `lines` with 1-based indices inside the inclusive range `r`,
each prefixed with its absolute line number. -/
def renderRange (lines : List String) (r : Nat × Nat) : String :=
  String.intercalate "\n"
    (numberLines ((lines.drop (r.1 - 1)).take (r.2 + 1 - r.1)) r.1)

/-- Modelled from the spec: `FormatLinesWithRanges` (code of this repository not under
`src/`) renders, for each display range, the source lines within it, each prefixed
with its absolute line number. -/
def formatLinesWithRanges (lines : List String) (ranges : List (Nat × Nat)) : String :=
  String.intercalate "\n" (ranges.map (renderRange lines))

/-! ## `FindReferences` (src/unnamed/part_000) -/

/-- The `---`-banner file header: path and reference count. -/
def fileInfoHeader (filePath : String) (count : Nat) : String :=
  "---\n\n" ++ filePath ++ "\nReferences in File: " ++ toString count ++ "\n"

/-- The `L<line>:C<col>` label of a reference's start position (1-based). -/
def locString (r : Location) : String :=
  "L" ++ toString (r.range.start.line + 1) ++ ":C" ++ toString (r.range.start.character + 1)

/-- One file's block inside `FindReferences`: `some` block when the file is emitted
(successfully formatted, or a read failure reported inline after the header), `none`
when the block is dropped because `GetLineRangesToDisplay` failed. -/
def processRefFile (client : Client) (contextLines : Int) (fileRefs : List Location)
    (uriStr : String) : Option String :=
  let filePath := stripFileScheme uriStr
  let fileInfo := fileInfoHeader filePath fileRefs.length
  match client.readFile filePath with
  | .error e => some (fileInfo ++ "\nError reading file: " ++ e)
  | .ok content =>
    let lines := splitLines content
    let locStrings := fileRefs.map locString
    match client.getLineRangesToDisplay fileRefs lines.length contextLines with
    | .error _ => none
    | .ok linesToShow =>
      let lineRanges := convertLinesToRanges linesToShow lines.length
      let formattedOutput :=
        if locStrings.length > 0 then
          fileInfo ++ "At: " ++ String.intercalate ", " locStrings ++ "\n"
        else fileInfo
      some (formattedOutput ++ "\n" ++ formatLinesWithRanges lines lineRanges)

/-- All file blocks produced for one symbol's reference list, in sorted URI order. -/
def symbolRefBlocks (client : Client) (contextLines : Int) (refs : List Location) :
    List String :=
  (groupUris refs).filterMap (fun u => processRefFile client contextLines (fileRefsFor refs u) u)

/-- The per-symbol loop of `FindReferences`: an `OpenFile` failure skips the symbol
and continues; a `References` failure aborts the whole loop with a wrapped error. -/
def processRefSymbols (client : Client) (contextLines : Int) :
    List Symbol → Except String (List String)
  | [] => .ok []
  | sym :: rest =>
    let loc := sym.getLocation
    match client.openFile (stripFileScheme loc.uri) with
    | .error _ => processRefSymbols client contextLines rest
    | .ok _ =>
      match client.references (mkReferenceParams loc) with
      | .error e => .error ("failed to get references: " ++ e)
      | .ok refs =>
        match processRefSymbols client contextLines rest with
        | .error e => .error e
        | .ok restBlocks => .ok (symbolRefBlocks client contextLines refs ++ restBlocks)

/-- `FindReferences`: resolve the query to symbol matches, loop over the matches, and
join the collected blocks — or return the no-references sentinel on an empty result. -/
def FindReferences (client : Client) (symbolName : String) : Except String String :=
  let contextLines := contextLinesFromEnv client.envContextLines
  match client.symbol symbolName with
  | .error e => .error ("failed to fetch symbol: " ++ e)
  | .ok symbolResult =>
    match symbolResult.results with
    | .error e => .error ("failed to parse results: " ++ e)
    | .ok results =>
      match processRefSymbols client contextLines results with
      | .error e => .error e
      | .ok allReferences =>
        if allReferences.length = 0 then
          .ok ("No references found for symbol: " ++ symbolName)
        else
          .ok (String.intercalate "\n" allReferences)

/-! ## `ReadDefinition` (src/internal/tools/definition.go) -/

/-- The `Kind:` line computed by the type switch: always present for
`SymbolInformation`; for `WorkspaceSymbol` only added when there is a container name
(to distinguish from legacy output); absent in the fallback shape. -/
def symbolKindLine : Symbol → String
  | .symbolInformation _ k _ _ => "Kind: " ++ tableKindMap k ++ "\n"
  | .workspaceSymbol _ k c _ =>
    if c ≠ "" then "Kind: " ++ tableKindMap k ++ "\n" else ""
  | .minimal _ _ => ""

/-- The `Container Name:` line computed by the type switch: present in both rich
shapes exactly when the container name is non-empty; absent in the fallback shape. -/
def symbolContainerLine : Symbol → String
  | .symbolInformation _ _ c _ =>
    if c ≠ "" then "Container Name: " ++ c ++ "\n" else ""
  | .workspaceSymbol _ _ c _ =>
    if c ≠ "" then "Container Name: " ++ c ++ "\n" else ""
  | .minimal _ _ => ""

/-- The `default` arm of the type switch: a fallback-shape match whose name differs
from the query is skipped (`continue`); the rich shapes are never name-filtered. -/
def nameFilterSkips (query : String) : Symbol → Bool
  | .minimal n _ => n ≠ query
  | _ => false

/-- The location block of one definition: symbol, file, optional kind/container
lines, and the 1-based range of the expanded location returned by
`GetFullDefinition`. -/
def locationInfo (sym : Symbol) (loc : Location) : String :=
  "Symbol: " ++ sym.getName ++ "\n" ++
  "File: " ++ stripFileScheme loc.uri ++ "\n" ++
  symbolKindLine sym ++
  symbolContainerLine sym ++
  "Range: L" ++ toString (loc.range.start.line + 1) ++
  ":C" ++ toString (loc.range.start.character + 1) ++
  " - L" ++ toString (loc.range.stop.line + 1) ++
  ":C" ++ toString (loc.range.stop.character + 1) ++ "\n\n"

/-- One match's definition block without the leading banner: `none` when the match
is skipped (name filter, `OpenFile` failure, or `GetFullDefinition` failure). -/
def defBlockCore (client : Client) (query : String) (sym : Symbol) : Option String :=
  if nameFilterSkips query sym then none
  else
    let loc := sym.getLocation
    match client.openFile (stripFileScheme loc.uri) with
    | .error _ => none
    | .ok _ =>
      match client.getFullDefinition loc with
      | .error _ => none
      | .ok (definition, loc2) =>
        some (locationInfo sym loc2 ++
          addLineNumbers definition (loc2.range.start.line + 1) ++ "\n")

/-- One match's full block: the `---` banner followed by the definition block. -/
def processDefSymbol (client : Client) (query : String) (sym : Symbol) : Option String :=
  (defBlockCore client query sym).map (fun core => "---\n\n" ++ core)

/-- The accumulation loop of `ReadDefinition` over the backend's matches, in
backend-return order. -/
def readDefinitionGather (client : Client) (query : String) : List Symbol → List String
  | [] => []
  | sym :: rest =>
    match processDefSymbol client query sym with
    | none => readDefinitionGather client query rest
    | some b => b :: readDefinitionGather client query rest

/-- `ReadDefinition`: resolve the query, loop over the matches, and concatenate the
collected blocks — or return `"<query> not found"` when none were produced. -/
def ReadDefinition (client : Client) (symbolName : String) : Except String String :=
  match client.symbol symbolName with
  | .error e => .error ("failed to fetch symbol: " ++ e)
  | .ok symbolResult =>
    match symbolResult.results with
    | .error e => .error ("failed to parse results: " ++ e)
    | .ok results =>
      let definitions := readDefinitionGather client symbolName results
      if definitions.length = 0 then .ok (symbolName ++ " not found")
      else .ok (String.join definitions)

/-! ## Clangd warm-up (src/internal/lsp/clangd.go) -/

/-- A file-tree entry visited by `filepath.Walk`. -/
structure ClangdEntry where
  path : String
  isDir : Bool

/-- The capabilities consumed by the clangd initialization: symbol queries whose
results are discarded, the workspace walk, and file opening. -/
structure ClangdClient where
  symbolQuery : String → Except String Unit
  walk : Except String (List ClangdEntry)
  openFile : String → Except String Unit

/-- `warmupClangdStaticIndex`: two low-selectivity symbol queries (`"::"`, then the
empty query); each failure is only logged, and the function always returns nil. -/
def warmupClangdStaticIndex (c : ClangdClient) : Except String Unit :=
  let _warm1 := c.symbolQuery "::"
  let _warm2 := c.symbolQuery ""
  .ok ()

/-- The file-extension filter of the walk callback: `.cpp`, `.cxx` or `.cc`. -/
def isCppSource (p : String) : Bool :=
  ".cpp".data.isSuffixOf p.data || ".cxx".data.isSuffixOf p.data ||
    ".cc".data.isSuffixOf p.data

/-- The C++ source files collected by the walk callback, skipping directories. -/
def collectCppFiles (entries : List ClangdEntry) : List String :=
  (entries.filter (fun e => !e.isDir && isCppSource e.path)).map (fun e => e.path)

/-- The open loop of `openCoreCppFiles`: open files until three have been opened
successfully; a failed open is logged and skipped. Returns the opened count. -/
def openUpToMax (c : ClangdClient) : List String → Nat → Nat
  | [], n => n
  | f :: rest, n =>
    if 3 ≤ n then n
    else
      match c.openFile f with
      | .error _ => openUpToMax c rest n
      | .ok _ => openUpToMax c rest (n + 1)

/-- `openCoreCppFiles`: fails only when the workspace walk fails; open failures of
individual files are skipped. -/
def openCoreCppFiles (c : ClangdClient) : Except String Nat :=
  match c.walk with
  | .error e => .error ("error walking workspace directory: " ++ e)
  | .ok entries => .ok (openUpToMax c (collectCppFiles entries) 0)

/-- `initializeClangdLanguageServer`: both steps are attempted, their errors are
only logged (`continuing anyway`), and the function returns nil unconditionally. -/
def initializeClangdLanguageServer (c : ClangdClient) : Except String Unit :=
  let _step1 := warmupClangdStaticIndex c
  let _step2 := openCoreCppFiles c
  .ok ()

/-! ## Concrete collaborators used by the witnesses -/

/-- A concrete location in a workspace file. -/
def emptyLoc : Location := ⟨"file:///w/a.cpp", ⟨⟨0, 0⟩, ⟨0, 0⟩⟩⟩

/-- A benign backend: every capability succeeds with a trivial value. -/
def baseClient : Client :=
  { symbol := fun _ => .ok ⟨.ok []⟩
    openFile := fun _ => .ok ()
    references := fun _ => .ok []
    getFullDefinition := fun _ => .ok ("", emptyLoc)
    readFile := fun _ => .ok ""
    getLineRangesToDisplay := fun _ _ _ => .ok []
    envContextLines := "" }

/-- A clangd collaborator whose workspace walk fails. -/
def clangdFailClient : ClangdClient :=
  { symbolQuery := fun _ => .error "backend down"
    walk := .error "disk"
    openFile := fun _ => .error "backend down" }

/-! ## Claim theorems -/

/-- C9. The warm-up never fails the overall initialization:
`initializeClangdLanguageServer` returns nil for every collaborator, the static-index
warm-up itself always returns nil (its two queries are only logged), and a failing
workspace walk makes `openCoreCppFiles` fail — an error the initializer swallows. -/
theorem clangd_init_never_fails :
    ∀ c : ClangdClient,
      initializeClangdLanguageServer c = .ok () ∧
      warmupClangdStaticIndex c = .ok () ∧
      (∀ e, c.walk = .error e →
        openCoreCppFiles c = .error ("error walking workspace directory: " ++ e)) := by
  intro c
  refine ⟨rfl, rfl, ?_⟩
  intro e he
  simp [openCoreCppFiles, he]

/-- Witness for C9 at a collaborator whose walk fails with `"disk"`. -/
theorem clangd_init_never_fails_witness :
    initializeClangdLanguageServer clangdFailClient = .ok () ∧
    openCoreCppFiles clangdFailClient = .error ("error walking workspace directory: " ++ "disk") :=
  ⟨(clangd_init_never_fails clangdFailClient).1,
   (clangd_init_never_fails clangdFailClient).2.2 "disk" rfl⟩

/-- C8. The `LSP_CONTEXT_LINES` configuration: the parsed value is used exactly when
parsing succeeds with a non-negative integer; an unset (empty), unparsable, or
negative value silently yields the default 5; the computed width is always a
non-negative integer, never an error. -/
theorem contextLines_config :
    ∀ s : String,
      (∀ v : Int, goAtoi s = some v → 0 ≤ v → contextLinesFromEnv s = v) ∧
      (goAtoi s = none → contextLinesFromEnv s = 5) ∧
      (∀ v : Int, goAtoi s = some v → v < 0 → contextLinesFromEnv s = 5) ∧
      0 ≤ contextLinesFromEnv s := by
  intro s
  by_cases hs : s = ""
  · subst hs
    have hnone : goAtoi "" = none := rfl
    refine ⟨?_, fun _ => rfl, ?_, by norm_num [contextLinesFromEnv]⟩
    · intro v hv
      rw [hnone] at hv
      exact absurd hv (by simp)
    · intro v hv
      rw [hnone] at hv
      exact absurd hv (by simp)
  · cases hg : goAtoi s with
    | none =>
      have hc : contextLinesFromEnv s = 5 := by simp [contextLinesFromEnv, hs, hg]
      refine ⟨?_, fun _ => hc, ?_, by rw [hc]; norm_num⟩
      · intro v hv
        exact absurd hv (by simp)
      · intro v hv
        exact absurd hv (by simp)
    | some w =>
      by_cases hw : 0 ≤ w
      · have hc : contextLinesFromEnv s = w := by
          simp [contextLinesFromEnv, hs, hg, hw]
        refine ⟨?_, ?_, ?_, by rw [hc]; exact hw⟩
        · intro v hv _
          injection hv with h
          rw [hc, h]
        · intro h
          exact absurd h (by simp)
        · intro v hv hneg
          injection hv with h
          rw [h] at hw
          exact absurd hw (not_le.mpr hneg)
      · have hc : contextLinesFromEnv s = 5 := by
          simp [contextLinesFromEnv, hs, hg, hw]
        refine ⟨?_, ?_, fun _ _ _ => hc, by rw [hc]; norm_num⟩
        · intro v hv h0
          injection hv with h
          rw [h] at hw
          exact absurd h0 hw
        · intro h
          exact absurd h (by simp)

/-- Witness for C8 at the values `"7"`, `""`, `"abc"` and `"-3"`. -/
theorem contextLines_config_witness :
    contextLinesFromEnv "7" = 7 ∧ contextLinesFromEnv "" = 5 ∧
    contextLinesFromEnv "abc" = 5 ∧ contextLinesFromEnv "-3" = 5 :=
  ⟨(contextLines_config "7").1 7 (by decide) (by decide),
   (contextLines_config "").2.1 rfl,
   (contextLines_config "abc").2.1 (by decide),
   (contextLines_config "-3").2.2.1 (-3) (by decide) (by decide)⟩

/-- The accumulation loop of `ReadDefinition` is the in-order `filterMap` of the
per-symbol processing over the backend's match list. -/
theorem readDefinitionGather_eq_filterMap (client : Client) (query : String) :
    ∀ results : List Symbol,
      readDefinitionGather client query results =
        results.filterMap (processDefSymbol client query) := by
  intro results
  induction results with
  | nil => rfl
  | cons s rest ih =>
    simp only [readDefinitionGather, List.filterMap_cons]
    cases h : processDefSymbol client query s <;> simp [h, ih]

/-- C7. `ReadDefinition` returns exactly the sentinel `"<query> not found"` — and no
error — whenever no match resolves to a definition block, in particular when the
backend returns zero matches. -/
theorem notFound_sentinel :
    ∀ (client : Client) (query : String) (sr : SymbolRes) (results : List Symbol),
      client.symbol query = .ok sr → sr.results = .ok results →
      results.filterMap (processDefSymbol client query) = [] →
      ReadDefinition client query = .ok (query ++ " not found") := by
  intro client query sr results h1 h2 h3
  simp only [ReadDefinition, h1, h2, readDefinitionGather_eq_filterMap, h3]
  rfl

/-- Witness for C7: a backend returning zero matches for `"missing_symbol"`. -/
theorem notFound_sentinel_witness :
    ReadDefinition baseClient "missing_symbol" = .ok ("missing_symbol" ++ " not found") :=
  notFound_sentinel baseClient "missing_symbol" ⟨.ok []⟩ [] rfl rfl rfl

/-- C4. The name filter of `ReadDefinition`: a fallback-shape match is kept only when
its name equals the query exactly, while matches in the two richer shapes are never
discarded by the name filter (whenever opening the file and expanding the definition
succeed, they produce a block regardless of their name). -/
theorem nameFilter_policy :
    ∀ (client : Client) (query : String) (loc : Location) (n : String) (k : Nat)
      (cn : String) (d : String) (loc2 : Location),
      (n ≠ query → processDefSymbol client query (.minimal n loc) = none) ∧
      (client.openFile (stripFileScheme loc.uri) = .ok () →
        client.getFullDefinition loc = .ok (d, loc2) →
        (processDefSymbol client query (.symbolInformation n k cn loc)).isSome = true ∧
        (processDefSymbol client query (.workspaceSymbol n k cn loc)).isSome = true ∧
        (n = query → (processDefSymbol client query (.minimal n loc)).isSome = true)) := by
  intro client query loc n k cn d loc2
  constructor
  · intro hne
    simp [processDefSymbol, defBlockCore, nameFilterSkips, hne]
  · intro hopen hdef
    refine ⟨?_, ?_, ?_⟩
    · simp [processDefSymbol, defBlockCore, nameFilterSkips, Symbol.getLocation, hopen, hdef]
    · simp [processDefSymbol, defBlockCore, nameFilterSkips, Symbol.getLocation, hopen, hdef]
    · intro heq
      simp [processDefSymbol, defBlockCore, nameFilterSkips, Symbol.getLocation, hopen, hdef, heq]

/-- Witness for C4: under a benign backend, the fallback match `"x"` is dropped for
query `"y"` while a rich-shape match named `"x"` still yields a block. -/
theorem nameFilter_policy_witness :
    processDefSymbol baseClient "y" (.minimal "x" emptyLoc) = none ∧
    (processDefSymbol baseClient "y" (.symbolInformation "x" 12 "C" emptyLoc)).isSome = true :=
  ⟨(nameFilter_policy baseClient "y" emptyLoc "x" 12 "C" "" emptyLoc).1 (by decide),
   ((nameFilter_policy baseClient "y" emptyLoc "x" 12 "C" "" emptyLoc).2 rfl rfl).1⟩

/-- C6 counterexample: a `WorkspaceSymbol` match for which the backend supplied a
kind (12, `Function`) but whose container name is empty produces no `Kind:` line at
all — refuting that the Kind line is included exactly when a kind was supplied. -/
theorem kindLine_counterexample :
    (Symbol.workspaceSymbol "method" 12 "" emptyLoc).suppliedKind = some 12 ∧
    symbolKindLine (Symbol.workspaceSymbol "method" 12 "" emptyLoc) = "" := by
  constructor
  · rfl
  · simp [symbolKindLine]

/-- C6 amended. The `Container Name:` line appears in the rich shapes exactly when
the container name is non-empty; the `Kind:` line appears always for
`SymbolInformation` but for `WorkspaceSymbol` only when the container name is
non-empty (even though that shape always supplies a kind); the fallback shape gets
neither line. -/
theorem kindContainer_lines :
    ∀ (n : String) (k : Nat) (cn : String) (loc : Location),
      symbolKindLine (.symbolInformation n k cn loc) = "Kind: " ++ tableKindMap k ++ "\n" ∧
      (cn ≠ "" →
        symbolContainerLine (.symbolInformation n k cn loc) = "Container Name: " ++ cn ++ "\n" ∧
        symbolKindLine (.workspaceSymbol n k cn loc) = "Kind: " ++ tableKindMap k ++ "\n" ∧
        symbolContainerLine (.workspaceSymbol n k cn loc) = "Container Name: " ++ cn ++ "\n") ∧
      (cn = "" →
        symbolContainerLine (.symbolInformation n k cn loc) = "" ∧
        symbolKindLine (.workspaceSymbol n k cn loc) = "" ∧
        symbolContainerLine (.workspaceSymbol n k cn loc) = "") ∧
      symbolKindLine (.minimal n loc) = "" ∧
      symbolContainerLine (.minimal n loc) = "" := by
  intro n k cn loc
  refine ⟨rfl, ?_, ?_, rfl, rfl⟩
  · intro hne
    refine ⟨?_, ?_, ?_⟩ <;> simp [symbolKindLine, symbolContainerLine, hne]
  · intro heq
    subst heq
    refine ⟨?_, ?_, ?_⟩ <;> simp [symbolKindLine, symbolContainerLine]

/-- Witness for C6 (amended) at a container-bearing and a container-less match. -/
theorem kindContainer_lines_witness :
    symbolKindLine (Symbol.workspaceSymbol "m" 12 "C" emptyLoc) =
      "Kind: " ++ tableKindMap 12 ++ "\n" ∧
    symbolContainerLine (Symbol.symbolInformation "m" 12 "" emptyLoc) = "" :=
  ⟨((kindContainer_lines "m" 12 "C" emptyLoc).2.1 (by decide)).2.1,
   ((kindContainer_lines "m" 12 "" emptyLoc).2.2.1 rfl).1⟩

/-! ## String concatenation lemmas -/

/-- `String.join` peels off its head summand. -/
theorem strJoin_cons (a : String) (l : List String) :
    String.join (a :: l) = a ++ String.join l := by
  apply String.ext
  simp [String.data_join]

/-- The tail-recursive worker of `String.intercalate` in terms of `String.join`. -/
theorem intercalate_go_spec (s : String) :
    ∀ (l : List String) (acc : String),
      String.intercalate.go acc s l = acc ++ String.join (l.map (fun x => s ++ x)) := by
  intro l
  induction l with
  | nil =>
    intro acc
    simp [String.intercalate.go, String.join]
  | cons a l ih =>
    intro acc
    simp only [String.intercalate.go]
    rw [ih (acc ++ s ++ a), List.map_cons, strJoin_cons]
    simp [String.append_assoc]

/-- Prefixing every block with a banner and concatenating equals one banner followed
by the banner-intercalated blocks. -/
theorem strJoin_banner (banner a : String) (l : List String) :
    String.join ((a :: l).map (fun x => banner ++ x)) =
      banner ++ String.intercalate banner (a :: l) := by
  rw [List.map_cons, strJoin_cons]
  simp only [String.intercalate]
  rw [intercalate_go_spec banner l a]
  simp [String.append_assoc]

/-- C5. Matches are rendered in backend-return order — the collected blocks are the
in-order `filterMap` of the per-match rendering, never re-sorted — and the report is
the blocks intercalated with the `---` banner (one banner also precedes the first
block, since each block is emitted with a leading banner). -/
theorem definition_order_and_separator :
    ∀ (client : Client) (query : String) (sr : SymbolRes) (results : List Symbol)
      (co : String) (cos : List String),
      readDefinitionGather client query results =
        (results.filterMap (defBlockCore client query)).map (fun x => "---\n\n" ++ x) ∧
      (client.symbol query = .ok sr → sr.results = .ok results →
        results.filterMap (defBlockCore client query) = co :: cos →
        ReadDefinition client query =
          .ok ("---\n\n" ++ String.intercalate "---\n\n" (co :: cos))) := by
  intro client query sr results co cos
  have hgather : readDefinitionGather client query results =
      (results.filterMap (defBlockCore client query)).map (fun x => "---\n\n" ++ x) := by
    rw [readDefinitionGather_eq_filterMap, List.map_filterMap]
    rfl
  refine ⟨hgather, ?_⟩
  intro h1 h2 h3
  simp only [ReadDefinition, h1, h2]
  rw [hgather, h3]
  have hlen : (((co :: cos).map (fun x => "---\n\n" ++ x)).length = 0) = False := by simp
  rw [List.map_cons]
  simp only [List.length_cons, Nat.succ_ne_zero, if_false, ite_false]
  rw [← List.map_cons, strJoin_banner]

/-- A backend returning one fallback-shape match and one rich match, both named `f`. -/
def defsClient : Client :=
  { baseClient with
    symbol := fun _ =>
      .ok ⟨.ok [.minimal "f" emptyLoc, .workspaceSymbol "f" 12 "C" emptyLoc]⟩
    getFullDefinition := fun loc => .ok ("int f();", loc) }

/-- The definition blocks the two matches of `defsClient` resolve to. -/
def defsBlocks : List String :=
  ([Symbol.minimal "f" emptyLoc, Symbol.workspaceSymbol "f" 12 "C" emptyLoc]).filterMap
    (defBlockCore defsClient "f")

/-- Witness for C5: with two resolving matches the report is the banner-intercalation
of their two blocks, in backend order. -/
theorem definition_order_and_separator_witness :
    ReadDefinition defsClient "f" =
      .ok ("---\n\n" ++ String.intercalate "---\n\n" (defsBlocks.head! :: defsBlocks.tail)) :=
  (definition_order_and_separator defsClient "f"
    ⟨.ok [.minimal "f" emptyLoc, .workspaceSymbol "f" 12 "C" emptyLoc]⟩
    [.minimal "f" emptyLoc, .workspaceSymbol "f" 12 "C" emptyLoc]
    defsBlocks.head! defsBlocks.tail).2 rfl rfl (by rfl)

/-! ## Error propagation in `FindReferences` -/

/-- An `OpenFile` failure for a symbol removes exactly that symbol from the loop. -/
theorem processRefSymbols_skip (client : Client) (ctx : Int) (s : Symbol) (e : String)
    (he : client.openFile (stripFileScheme s.getLocation.uri) = .error e) :
    ∀ pre rest : List Symbol,
      processRefSymbols client ctx (pre ++ s :: rest) =
        processRefSymbols client ctx (pre ++ rest) := by
  intro pre
  induction pre with
  | nil =>
    intro rest
    simp only [List.nil_append, processRefSymbols, he]
  | cons p pre ih =>
    intro rest
    simp only [List.cons_append, processRefSymbols, List.append_eq]
    rw [ih rest]

/-- After a successfully processed prefix, a symbol whose file opens but whose
references request fails aborts the loop with the wrapped error. -/
theorem processRefSymbols_abort (client : Client) (ctx : Int) (s : Symbol) (e : String)
    (ho : client.openFile (stripFileScheme s.getLocation.uri) = .ok ())
    (hr : client.references (mkReferenceParams s.getLocation) = .error e) :
    ∀ (pre : List Symbol) (bs : List String) (rest : List Symbol),
      processRefSymbols client ctx pre = .ok bs →
      processRefSymbols client ctx (pre ++ s :: rest) =
        .error ("failed to get references: " ++ e) := by
  intro pre
  induction pre with
  | nil =>
    intro bs rest _
    simp only [List.nil_append, processRefSymbols, ho, hr]
  | cons p pre ih =>
    intro bs rest hpre
    simp only [List.cons_append, processRefSymbols, List.append_eq] at hpre ⊢
    cases hop : client.openFile (stripFileScheme p.getLocation.uri) with
    | error e2 =>
      simp only [hop] at hpre ⊢
      exact ih bs rest hpre
    | ok u =>
      simp only [hop] at hpre ⊢
      cases hrp : client.references (mkReferenceParams p.getLocation) with
      | error e2 => simp [hrp] at hpre
      | ok refs =>
        simp only [hrp] at hpre ⊢
        cases hrec : processRefSymbols client ctx pre with
        | error e2 => simp [hrec] at hpre
        | ok bs2 => rw [ih bs2 rest hrec]

/-- C1. Error policy of `FindReferences` per matched symbol: an `OpenFile` failure
only skips that symbol (the loop result equals the loop without it), whereas a
`References` failure after a successful open aborts the loop with the wrapped error,
which `FindReferences` propagates as the whole call's error. -/
theorem references_error_policy :
    ∀ (client : Client) (query : String) (ctx : Int) (s : Symbol) (e : String)
      (pre rest : List Symbol) (bs : List String),
      (client.openFile (stripFileScheme s.getLocation.uri) = .error e →
        processRefSymbols client ctx (pre ++ s :: rest) =
          processRefSymbols client ctx (pre ++ rest)) ∧
      (processRefSymbols client ctx pre = .ok bs →
        client.openFile (stripFileScheme s.getLocation.uri) = .ok () →
        client.references (mkReferenceParams s.getLocation) = .error e →
        processRefSymbols client ctx (pre ++ s :: rest) =
          .error ("failed to get references: " ++ e)) ∧
      (∀ (sr : SymbolRes) (results : List Symbol),
        client.symbol query = .ok sr → sr.results = .ok results →
        processRefSymbols client (contextLinesFromEnv client.envContextLines) results =
          .error e →
        FindReferences client query = .error e) := by
  intro client query ctx s e pre rest bs
  refine ⟨?_, ?_, ?_⟩
  · intro he
    exact processRefSymbols_skip client ctx s e he pre rest
  · intro hpre ho hr
    exact processRefSymbols_abort client ctx s e ho hr pre bs rest hpre
  · intro sr results h1 h2 h3
    simp only [FindReferences, h1, h2, h3]

/-- A backend with one match whose references request fails. -/
def refsFailClient : Client :=
  { baseClient with
    symbol := fun _ => .ok ⟨.ok [.minimal "f" emptyLoc]⟩
    references := fun _ => .error "boom" }

/-- A backend that cannot open any file. -/
def openFailClient : Client :=
  { baseClient with openFile := fun _ => .error "cannot open" }

/-- Witness for C1: the failing references request aborts the loop and the whole
call with the wrapped error, while a failing open merely drops the symbol. -/
theorem references_error_policy_witness :
    processRefSymbols refsFailClient 5 ([] ++ Symbol.minimal "f" emptyLoc :: []) =
      .error ("failed to get references: " ++ "boom") ∧
    FindReferences refsFailClient "f" =
      .error ("failed to get references: " ++ "boom") ∧
    processRefSymbols openFailClient 5 ([] ++ Symbol.minimal "f" emptyLoc :: []) =
      processRefSymbols openFailClient 5 ([] ++ []) :=
  ⟨(references_error_policy refsFailClient "f" 5 (.minimal "f" emptyLoc) "boom"
      [] [] []).2.1 rfl rfl rfl,
   (references_error_policy refsFailClient "f" 5 (.minimal "f" emptyLoc)
      ("failed to get references: " ++ "boom") [] [] []).2.2
      ⟨.ok [.minimal "f" emptyLoc]⟩ [.minimal "f" emptyLoc] rfl rfl (by rfl),
   (references_error_policy openFailClient "f" 5 (.minimal "f" emptyLoc) "cannot open"
      [] [] []).1 rfl⟩

/-! ## Grouping, header counts and per-file failure modes -/

/-- The reference counts printed in the file headers for one symbol: one count per
file block actually emitted (a block carries `fileRefsFor refs u |>.length` in its
header whenever it is emitted at all). -/
def emittedHeaderCounts (client : Client) (contextLines : Int) (refs : List Location) :
    List Nat :=
  (groupUris refs).filterMap (fun u =>
    (processRefFile client contextLines (fileRefsFor refs u) u).map
      (fun _ => (fileRefsFor refs u).length))

/-- When every file block is emitted, the printed header counts are exactly the
group sizes. -/
theorem emittedHeaderCounts_of_all_emitted (client : Client) (ctx : Int)
    (refs : List Location) :
    ∀ l : List String,
      (∀ u ∈ l, (processRefFile client ctx (fileRefsFor refs u) u).isSome = true) →
      l.filterMap (fun u =>
        (processRefFile client ctx (fileRefsFor refs u) u).map
          (fun _ => (fileRefsFor refs u).length)) =
      l.map (fun u => (fileRefsFor refs u).length) := by
  intro l
  induction l with
  | nil => intro _; rfl
  | cons u l ih =>
    intro h
    rw [List.filterMap_cons, List.map_cons]
    cases hu : processRefFile client ctx (fileRefsFor refs u) u with
    | none =>
      have hmem := h u (List.mem_cons_self u l)
      rw [hu] at hmem
      simp at hmem
    | some b =>
      simp only [Option.map_some']
      rw [ih (fun v hv => h v (List.mem_cons_of_mem u hv))]

/-- A backend whose display-range computation always fails: every file block of
`FindReferences` is dropped entirely. -/
def rangesFailClient : Client :=
  { baseClient with
    symbol := fun _ => .ok ⟨.ok [.minimal "f" emptyLoc]⟩
    references := fun _ => .ok [emptyLoc]
    getLineRangesToDisplay := fun _ _ _ => .error "no ranges" }

/-- C3 counterexample: when `GetLineRangesToDisplay` fails for a file, that file's
block — its header included — is omitted, so the per-file counts printed in headers
sum to 0 although the backend returned 1 reference for the symbol: the claimed
equality fails as stated. -/
theorem grouping_sum_counterexample :
    (emittedHeaderCounts rangesFailClient 5 [emptyLoc]).sum ≠
      ([emptyLoc] : List Location).length := by
  decide

/-- C3 amended. For every matched symbol the returned references are grouped by file
URI (every group member carries the group's URI), the file blocks are iterated in
lexicographically sorted URI order, and the group sizes placed in the headers sum to
the backend's total reference count; the printed header counts realize that sum
provided every file block is actually emitted (a file whose display-range computation
fails is omitted, header and count included — see the counterexample). -/
theorem grouping_and_counts :
    ∀ (client : Client) (ctx : Int) (refs : List Location),
      List.Sorted (· ≤ ·) (groupUris refs) ∧
      ((groupUris refs).all (fun u => (fileRefsFor refs u).all (fun r => r.uri == u))) = true ∧
      ((groupUris refs).map (fun u => (fileRefsFor refs u).length)).sum = refs.length ∧
      ((∀ u ∈ groupUris refs,
          (processRefFile client ctx (fileRefsFor refs u) u).isSome = true) →
        (emittedHeaderCounts client ctx refs).sum = refs.length) := by
  intro client ctx refs
  refine ⟨groupUris_sorted refs, ?_, groupUris_counts_sum refs, ?_⟩
  · rw [List.all_eq_true]
    intro u _
    rw [List.all_eq_true]
    intro r hr
    have := List.of_mem_filter hr
    exact this
  · intro h
    rw [emittedHeaderCounts, emittedHeaderCounts_of_all_emitted client ctx refs _ h]
    exact groupUris_counts_sum refs

/-- A second location in a different file. -/
def otherLoc : Location := ⟨"file:///w/b.cpp", ⟨⟨3, 1⟩, ⟨3, 4⟩⟩⟩

/-- Witness for C3 (amended) on two files with three references under a benign
backend: all blocks are emitted and the printed counts sum to the total. -/
theorem grouping_and_counts_witness :
    (emittedHeaderCounts baseClient 5 [emptyLoc, otherLoc, emptyLoc]).sum =
      ([emptyLoc, otherLoc, emptyLoc] : List Location).length :=
  (grouping_and_counts baseClient 5 [emptyLoc, otherLoc, emptyLoc]).2.2.2 (by decide)

/-- C10. Per-file failure modes inside `FindReferences`: a failure of the
display-range computation silently omits the file's entire block, while a failure to
read the file still emits the header with the error text embedded after it. -/
theorem file_block_failure_modes :
    ∀ (client : Client) (ctx : Int) (fileRefs : List Location) (uriStr : String)
      (e : String) (content : String),
      (client.readFile (stripFileScheme uriStr) = .error e →
        processRefFile client ctx fileRefs uriStr =
          some (fileInfoHeader (stripFileScheme uriStr) fileRefs.length ++
            "\nError reading file: " ++ e)) ∧
      (client.readFile (stripFileScheme uriStr) = .ok content →
        client.getLineRangesToDisplay fileRefs (splitLines content).length ctx = .error e →
        processRefFile client ctx fileRefs uriStr = none) := by
  intro client ctx fileRefs uriStr e content
  constructor
  · intro hre
    simp [processRefFile, hre]
  · intro hrf hlr
    simp [processRefFile, hrf, hlr]

/-- A backend whose file reads fail. -/
def readFailClient : Client :=
  { baseClient with readFile := fun _ => .error "io" }

/-- Witness for C10: the read failure emits a header-plus-error block, the
display-range failure emits nothing. -/
theorem file_block_failure_modes_witness :
    processRefFile readFailClient 5 [emptyLoc] "file:///w/a.cpp" =
      some (fileInfoHeader (stripFileScheme "file:///w/a.cpp") 1 ++
        "\nError reading file: " ++ "io") ∧
    processRefFile rangesFailClient 5 [emptyLoc] "file:///w/a.cpp" = none :=
  ⟨(file_block_failure_modes readFailClient 5 [emptyLoc] "file:///w/a.cpp" "io" "").1 rfl,
   (file_block_failure_modes rangesFailClient 5 [emptyLoc] "file:///w/a.cpp"
      "no ranges" "").2 rfl rfl⟩

end MCP
